import Mathlib

/-!
# A verification model of the `nshconfig` configuration library

`nshconfig` is a configuration-definition layer on top of a data-validation
library (Pydantic).  The repository snapshot at hand contains the project's
documentation, README and notebook but not the Python implementation files, so
every definition below is modelled from the specification and the repository's
documentation: config schemas are named, typed fields; instances are named
field values; validation checks every value against its declared field type;
the MISSING sentinel, the Invalid marker, draft/finalize, the singleton holder,
the dynamic registry, deduplication, hashing and the serialization formats are
modelled operation by operation from their documented contracts.
-/

namespace NshConfig

/-- Modelled from the spec: the runtime values a configuration field can hold.
The implementation is not in the snapshot; the spec's data model has ordinary
field values (here booleans, integers and strings), Python's `None`, and the
distinguished MISSING sentinel, "a unique placeholder value usable as a
field's effective 'not yet set' state for any field type". -/
inductive Value where
  | vMissing : Value
  | vNone : Value
  | vBool : Bool → Value
  | vInt : Int → Value
  | vStr : String → Value
deriving DecidableEq, Repr

/-- Modelled from the spec: the declared type of a configuration field.
`tLit s` models a `Literal["s"]` field (the registry's discriminator fields
"must be `Literal` with exactly one value"); `tAllowMissing t` models
`AllowMissing[T]`, which additionally accepts the MISSING sentinel. -/
inductive FieldTy where
  | tBool : FieldTy
  | tInt : FieldTy
  | tStr : FieldTy
  | tLit : String → FieldTy
  | tAllowMissing : FieldTy → FieldTy
deriving DecidableEq, Repr

/-- Modelled from the spec: strict field validation (nshconfig sets
`strict=True`), deciding whether a value inhabits a declared field type.
`AllowMissing[T]` accepts exactly MISSING and the values of `T`. -/
def checkValue : FieldTy → Value → Bool
  | .tBool, .vBool _ => true
  | .tInt, .vInt _ => true
  | .tStr, .vStr _ => true
  | .tLit lit, .vStr s => lit == s
  | .tAllowMissing t, v => v == .vMissing || checkValue t v
  | _, _ => false

/-- Whether a field type is an `AllowMissing[...]` type. -/
def FieldTy.allowsMissing : FieldTy → Bool
  | .tAllowMissing _ => true
  | _ => false

/-- Modelled from the spec: the error kinds surfaced by the library — the
validation library's standard validation error, plus the ordinary Python
`ValueError`, `TypeError` and `RuntimeError` raised by the helpers. -/
inductive PyError where
  | valueError : String → PyError
  | typeError : String → PyError
  | runtimeError : String → PyError
  | validationError : String → PyError
deriving DecidableEq, Repr

/-- A configuration schema: named, typed fields in declaration order. -/
abbrev Schema := List (String × FieldTy)

/-- A configuration instance: named field values in declaration order. -/
abbrev Inst := List (String × Value)

/-- Modelled from the spec: full validation of an instance against its
schema — the fields must be exactly the schema's fields, in order, and every
value must satisfy its declared type. -/
def validateInst : Schema → Inst → Bool
  | [], [] => true
  | (n, t) :: s, (n', v) :: i => n == n' && checkValue t v && validateInst s i
  | _, _ => false

/-- Look up a field's value by name (first match). -/
def lookupField (l : Inst) (n : String) : Option Value :=
  (l.find? (fun p => p.1 == n)).map Prod.snd

/-- Modelled from the spec: `Invalid.invalidate`, the `mode="before"` model
validator of the `Invalid` marker type; it raises `ValueError` for every
construction input, before any field handling. -/
def Invalid.invalidate (_data : Value) : Except PyError Value :=
  .error (.valueError "This is an invalid configuration.")

/-- Modelled from the spec: constructing an `Invalid` instance runs the
`invalidate` before-validator first; only if it returned would the (empty)
field set be produced. -/
def Invalid.construct (data : Value) : Except PyError Inst :=
  match Invalid.invalidate data with
  | .error e => .error e
  | .ok _ => .ok []

/-- Whether any field of an instance still holds the MISSING sentinel. -/
def instHasMissing (inst : Inst) : Bool :=
  inst.any (fun p => p.2 == Value.vMissing)

/-- Modelled from the spec: `model_validate_no_missing` — the explicit check
that raises the validation library's error when some field still holds
MISSING, and otherwise returns with the instance unchanged. -/
def model_validate_no_missing (inst : Inst) : Except PyError Inst :=
  if instHasMissing inst then
    .error (.validationError "instance has MISSING fields")
  else
    .ok inst

/-! ## Deduplication -/

/-- Modelled from the spec: the loop of `deduplicate` — walk the input keeping
a `seen` list; an item is appended exactly when no previously kept item
compares equal to it (`any(config == seen_config for seen_config in seen)`). -/
def dedupGo {α : Type} [DecidableEq α] (seen : List α) : List α → List α
  | [] => seen
  | x :: xs =>
    if seen.any (fun y => y == x) then dedupGo seen xs
    else dedupGo (seen ++ [x]) xs

/-- Modelled from the spec: `deduplicate` returns a new list with duplicates
removed, comparing by equality (not hashing) and keeping first occurrences. -/
def deduplicate {α : Type} [DecidableEq α] (xs : List α) : List α :=
  dedupGo [] xs

/-- Specification-side description of deduplication: the sequence of first
occurrences of the distinct items, in the order they first appear. -/
def firstOccurrences {α : Type} [DecidableEq α] : List α → List α
  | [] => []
  | x :: xs => x :: firstOccurrences (xs.filter (fun y => y != x))
termination_by l => l.length
decreasing_by
  simp only [List.length_cons]
  exact Nat.lt_succ_of_le (List.length_filter_le _ _)

/-! ## Schema-directed construction and serialization

The repository serializes configs to JSON, YAML and TOML strings and to plain
dictionaries.  The textual encoding/parsing of JSON/YAML/TOML is the host
libraries' job; we model each format at the level of its parsed document and
model the repository's contract (`to_*` then `from_*` restores the config). -/

/-- Modelled from the spec: schema-directed decoding of a document's named
values into an instance.  A present field is decoded by the format's value
decoder `dec`; an absent `AllowMissing` field takes its declared default
MISSING; an absent required field is a validation error. -/
def decodeFields {β : Type} (dec : FieldTy → β → Except PyError Value) :
    Schema → List (String × β) → Except PyError Inst
  | [], _ => .ok []
  | (n, t) :: s, data =>
    match data.find? (fun p => p.1 == n) with
    | some p =>
      match dec t p.2 with
      | .ok v =>
        match decodeFields dec s data with
        | .ok rest => .ok ((n, v) :: rest)
        | .error e => .error e
      | .error e => .error e
    | none =>
      if t.allowsMissing then
        match decodeFields dec s data with
        | .ok rest => .ok ((n, Value.vMissing) :: rest)
        | .error e => .error e
      else .error (.validationError "missing required field")

/-- Modelled from the spec: nshconfig sets `extra="forbid"`, so input data may
only carry keys declared in the schema. -/
def noExtraKeys {β : Type} (s : Schema) (data : List (String × β)) : Bool :=
  data.all (fun p => s.any (fun q => q.1 == p.1))

/-- Modelled from the spec: validate named input data against a schema —
reject extra keys, then decode schema field by schema field. -/
def loadData {β : Type} (dec : FieldTy → β → Except PyError Value)
    (s : Schema) (data : List (String × β)) : Except PyError Inst :=
  if noExtraKeys s data then decodeFields dec s data
  else .error (.validationError "extra fields are forbidden")

/-- The dictionary format's value decoder: strict validation of the value
against the declared field type. -/
def decDict (t : FieldTy) (v : Value) : Except PyError Value :=
  if checkValue t v then .ok v
  else .error (.validationError "value does not match field type")

/-- Modelled from the spec: `to_dict` dumps the config's fields as a plain
dictionary of field values. -/
def to_dict (inst : Inst) : List (String × Value) := inst

/-- Modelled from the spec: `from_dict` validates a plain dictionary of field
values into a config instance. -/
def from_dict (s : Schema) (data : List (String × Value)) :
    Except PyError Inst :=
  loadData decDict s data

/-- A parsed JSON document. -/
inductive Json where
  | jNull : Json
  | jBool : Bool → Json
  | jInt : Int → Json
  | jStr : String → Json
  | jObj : List (String × Json) → Json

/-- Encode one field value as JSON; the MISSING sentinel and `None` both
serialize as JSON `null`. -/
def encJson : Value → Json
  | .vMissing => .jNull
  | .vNone => .jNull
  | .vBool b => .jBool b
  | .vInt n => .jInt n
  | .vStr s => .jStr s

/-- Decode one JSON value guided by the declared field type; for an
`AllowMissing` field, `null` decodes to the MISSING sentinel. -/
def decJson : FieldTy → Json → Except PyError Value
  | .tBool, .jBool b => .ok (.vBool b)
  | .tInt, .jInt n => .ok (.vInt n)
  | .tStr, .jStr s => .ok (.vStr s)
  | .tLit lit, .jStr s =>
    if lit == s then .ok (.vStr s)
    else .error (.validationError "discriminator literal mismatch")
  | .tAllowMissing _, .jNull => .ok .vMissing
  | .tAllowMissing t, j => decJson t j
  | _, _ => .error (.validationError "JSON value does not match field type")

/-- Modelled from the spec: `to_json` dumps a config as a JSON object with one
member per field. -/
def to_json (inst : Inst) : Json :=
  .jObj (inst.map (fun p => (p.1, encJson p.2)))

/-- Modelled from the spec: `from_json` validates a JSON document into a
config instance; the document must be an object. -/
def from_json (s : Schema) (j : Json) : Except PyError Inst :=
  match j with
  | .jObj data => loadData decJson s data
  | _ => .error (.validationError "JSON document is not an object")

/-- A parsed YAML document. -/
inductive Yaml where
  | yNull : Yaml
  | yBool : Bool → Yaml
  | yInt : Int → Yaml
  | yStr : String → Yaml
  | yMap : List (String × Yaml) → Yaml

/-- Encode one field value as YAML; the MISSING sentinel and `None` both
serialize as YAML `null`. -/
def encYaml : Value → Yaml
  | .vMissing => .yNull
  | .vNone => .yNull
  | .vBool b => .yBool b
  | .vInt n => .yInt n
  | .vStr s => .yStr s

/-- Decode one YAML value guided by the declared field type; for an
`AllowMissing` field, `null` decodes to the MISSING sentinel. -/
def decYaml : FieldTy → Yaml → Except PyError Value
  | .tBool, .yBool b => .ok (.vBool b)
  | .tInt, .yInt n => .ok (.vInt n)
  | .tStr, .yStr s => .ok (.vStr s)
  | .tLit lit, .yStr s =>
    if lit == s then .ok (.vStr s)
    else .error (.validationError "discriminator literal mismatch")
  | .tAllowMissing _, .yNull => .ok .vMissing
  | .tAllowMissing t, y => decYaml t y
  | _, _ => .error (.validationError "YAML value does not match field type")

/-- Modelled from the spec: `to_yaml` dumps a config as a YAML mapping with
one entry per field. -/
def to_yaml (inst : Inst) : Yaml :=
  .yMap (inst.map (fun p => (p.1, encYaml p.2)))

/-- Modelled from the spec: `from_yaml` validates a YAML document into a
config instance; the document must be a mapping. -/
def from_yaml (s : Schema) (y : Yaml) : Except PyError Inst :=
  match y with
  | .yMap data => loadData decYaml s data
  | _ => .error (.validationError "YAML document is not a mapping")

/-- A TOML table value.  TOML has no null, so unset (MISSING) fields are
simply omitted from the table. -/
inductive TomlVal where
  | tomlBool : Bool → TomlVal
  | tomlInt : Int → TomlVal
  | tomlStr : String → TomlVal
deriving DecidableEq, Repr

/-- Encode one field value as a TOML value; MISSING (and `None`, which TOML
cannot represent either) encode to no entry at all. -/
def encToml : Value → Option TomlVal
  | .vMissing => none
  | .vNone => none
  | .vBool b => some (.tomlBool b)
  | .vInt n => some (.tomlInt n)
  | .vStr s => some (.tomlStr s)

/-- Decode one TOML value guided by the declared field type. -/
def decToml : FieldTy → TomlVal → Except PyError Value
  | .tBool, .tomlBool b => .ok (.vBool b)
  | .tInt, .tomlInt n => .ok (.vInt n)
  | .tStr, .tomlStr s => .ok (.vStr s)
  | .tLit lit, .tomlStr s =>
    if lit == s then .ok (.vStr s)
    else .error (.validationError "discriminator literal mismatch")
  | .tAllowMissing t, w => decToml t w
  | _, _ => .error (.validationError "TOML value does not match field type")

/-- Modelled from the spec: `to_toml` dumps a config as a TOML table with one
entry per set field; MISSING fields are omitted. -/
def to_toml (inst : Inst) : List (String × TomlVal) :=
  inst.filterMap (fun p => (encToml p.2).map (fun w => (p.1, w)))

/-- Modelled from the spec: `from_toml` validates a TOML table into a config
instance; omitted `AllowMissing` fields come back as MISSING. -/
def from_toml (s : Schema) (data : List (String × TomlVal)) :
    Except PyError Inst :=
  loadData decToml s data

/-! ## Draft configs -/

/-- Modelled from the spec: a draft config — "a schema instance constructed
bypassing validation, intended for incremental field assignment".  It simply
carries the raw field values; nothing about them is checked. -/
structure Draft where
  fields : List (String × Value)
deriving DecidableEq, Repr

/-- Modelled from the spec: `MyConfig.draft()` constructs a draft without
running field validation; every schema field starts in the unset (MISSING)
state. -/
def Config.draft (s : Schema) : Draft :=
  ⟨s.map (fun p => (p.1, Value.vMissing))⟩

/-- Modelled from the spec: assignment to a draft config; draft assignments
are not validated (`no_validate_assignment_for_draft=True`), so the value is
stored unconditionally. -/
def Draft.set (d : Draft) (n : String) (v : Value) : Draft :=
  ⟨d.fields.map (fun p => if p.1 == n then (n, v) else p)⟩

/-- Modelled from the spec: `finalize()` runs full validation over the
draft's field values, returning the validated configuration when every field
satisfies the schema and raising the validation library's error otherwise. -/
def Draft.finalize (s : Schema) (d : Draft) : Except PyError Inst :=
  if validateInst s d.fields then .ok d.fields
  else .error (.validationError "draft fields failed validation")

/-! ## Singleton holders -/

/-- Modelled from the spec: a singleton holder's state — a single
assignment-once cell that is empty until the first successful
`initialize(...)` and cleared again by `reset()`. -/
structure SingletonState where
  cell : Option Inst
deriving DecidableEq, Repr

/-- The argument forms of `Singleton.initializeHolder`: an existing instance,
keyword arguments to construct a new one, or (erroneously) no arguments. -/
inductive InitArg where
  | fromInstance : Inst → InitArg
  | fromKwargs : List (String × Value) → InitArg
  | noArgs : InitArg
deriving DecidableEq, Repr

/-- The outcome of one `initialize` call: the holder's next state, the value
returned (or the error raised), and whether the already-initialized warning
was emitted. -/
structure InitOutcome where
  state : SingletonState
  result : Except PyError Inst
  warned : Bool
deriving Repr

/-- Modelled from the spec: `Singleton.initializeHolder`.  With no arguments it
raises `TypeError`.  If the holder is already initialized it returns the
existing instance and emits a warning, leaving the cell untouched.  Otherwise
it stores the given instance, or constructs one from the keyword arguments
(storing it only when construction validates). -/
def Singleton.initializeHolder (s : Schema) (st : SingletonState) :
    InitArg → InitOutcome
  | .noArgs =>
    ⟨st, .error (.typeError "initialize() requires an instance or kwargs"),
      false⟩
  | .fromInstance i =>
    match st.cell with
    | some existing => ⟨st, .ok existing, true⟩
    | none => ⟨⟨some i⟩, .ok i, false⟩
  | .fromKwargs data =>
    match st.cell with
    | some existing => ⟨st, .ok existing, true⟩
    | none =>
      match from_dict s data with
      | .ok i => ⟨⟨some i⟩, .ok i, false⟩
      | .error e => ⟨st, .error e, false⟩

/-- Modelled from the spec: `Singleton.instance()` returns the stored
instance and raises `RuntimeError` when the holder is not initialized. -/
def Singleton.instance' (st : SingletonState) : Except PyError Inst :=
  match st.cell with
  | some i => .ok i
  | none => .error (.runtimeError "singleton has not been initialized")

/-- Modelled from the spec: `Singleton.try_instance()` returns the stored
instance if initialized, else `None`. -/
def Singleton.try_instance (st : SingletonState) : Option Inst :=
  st.cell

/-- Modelled from the spec: `Singleton.reset()` clears the cell, allowing
re-initialization. -/
def Singleton.reset (_st : SingletonState) : SingletonState :=
  ⟨none⟩

/-! ## The dynamic type registry -/

/-- Registered variant classes are identified by name. -/
abbrev ClassId := String

/-- Modelled from the spec: a registry is "a run-time table mapping a
discriminator field's value to one of several registered schema variants". -/
structure Registry where
  discriminator : String
  variants : List (String × ClassId)
deriving DecidableEq, Repr

/-- Modelled from the spec: `registry.register` adds a variant class under
its discriminator literal value; a value may be registered only once. -/
def Registry.register (r : Registry) (d : String) (cls : ClassId) :
    Except PyError Registry :=
  if r.variants.any (fun p => p.1 == d) then
    .error (.valueError "discriminator value already registered")
  else
    .ok { r with variants := (d, cls) :: r.variants }

/-- Register a whole sequence of variants in order (e.g. those contributed by
plugins loaded after the parent config class was defined). -/
def Registry.registerAll (r : Registry) :
    List (String × ClassId) → Except PyError Registry
  | [] => .ok r
  | (d, cls) :: rest =>
    match r.register d cls with
    | .ok r' => r'.registerAll rest
    | .error e => .error e

/-- Modelled from the spec: resolution of input data to a registered variant —
read the discriminator field of the data and look its value up in the
registry's table. -/
def Registry.resolve (r : Registry) (data : List (String × Value)) :
    Option ClassId :=
  match (data.find? (fun p => p.1 == r.discriminator)).map Prod.snd with
  | some (.vStr d) => (r.variants.find? (fun p => p.1 == d)).map Prod.snd
  | _ => none

/-- An instance tagged with the variant class it validated as. -/
structure Tagged where
  cls : ClassId
  inst : Inst
deriving DecidableEq, Repr

/-- Modelled from the spec: validating input data through a config field
annotated with the registry — resolve the discriminator to a registered
variant class, then validate the data against that class's schema (`env`
gives each registered class its schema). -/
def Registry.construct (env : ClassId → Schema) (r : Registry)
    (data : List (String × Value)) : Except PyError Tagged :=
  match r.resolve data with
  | none => .error (.validationError "unknown or missing discriminator value")
  | some cls =>
    match from_dict (env cls) data with
    | .ok i => .ok ⟨cls, i⟩
    | .error e => .error e

/-! ## Hashing -/

/-- A Python config object: an object identity plus its field values.
Equality between configs compares field values only, never the identity. -/
structure PyObj where
  objId : Nat
  fields : Inst
deriving DecidableEq, Repr

/-- Modelled from the spec: config equality — two instances of the same
config class are equal when all their field values are equal. -/
def cfgEq (a b : PyObj) : Bool :=
  a.fields == b.fields

/-- A hash for one field value. -/
def hashValue : Value → Nat
  | .vMissing => 0
  | .vNone => 1
  | .vBool b => if b then 3 else 2
  | .vInt n => 4 + 2 * n.natAbs + (if n < 0 then 1 else 0)
  | .vStr s => 5 + s.foldl (fun h ch => h * 131 + ch.toNat) 7

/-- Modelled from the spec: the default `__hash__` added to every config
class — "computes a hash based on the values of all fields in the config". -/
def defaultHash (a : PyObj) : Nat :=
  a.fields.foldl
    (fun h p => (h * 33 + p.1.foldl (fun g ch => g * 131 + ch.toNat) 5)
      * 33 + hashValue p.2) 17

/-- Modelled from the spec: hashing a config instance — with
`set_default_hash=False` in the model config, hashing raises `TypeError`
(as for any Python object whose `__hash__` is `None`). -/
def hashConfig (setDefaultHash : Bool) (a : PyObj) : Except PyError Nat :=
  if setDefaultHash then .ok (defaultHash a)
  else .error (.typeError "unhashable type")

/-! ## Helper lemmas -/

theorem checkValue_vNone (t : FieldTy) : checkValue t Value.vNone = false := by
  induction t with
  | tBool => rfl
  | tInt => rfl
  | tStr => rfl
  | tLit lit => rfl
  | tAllowMissing t ih => simp [checkValue, ih]

theorem checkValue_vMissing (t : FieldTy) :
    checkValue t Value.vMissing = t.allowsMissing := by
  cases t <;> rfl

theorem find?_append_of_forall_false {β : Type} (p : β → Bool)
    (l₁ l₂ : List β) (h : ∀ x ∈ l₁, p x = false) :
    (l₁ ++ l₂).find? p = l₂.find? p := by
  induction l₁ with
  | nil => simp
  | cons a l ih =>
    have ha := h a (List.mem_cons_self a l)
    rw [List.cons_append, List.find?_cons, ha]
    exact ih (fun x hx => h x (List.mem_cons_of_mem a hx))

theorem validateInst_names : ∀ (s : Schema) (inst : Inst),
    validateInst s inst = true → inst.map Prod.fst = s.map Prod.fst := by
  intro s
  induction s with
  | nil =>
    intro inst h
    cases inst with
    | nil => rfl
    | cons p i => simp [validateInst] at h
  | cons q s ih =>
    intro inst h
    obtain ⟨n, t⟩ := q
    cases inst with
    | nil => simp [validateInst] at h
    | cons p i =>
      obtain ⟨n', v⟩ := p
      simp only [validateInst, Bool.and_eq_true, beq_iff_eq] at h
      obtain ⟨⟨hn, _⟩, hrest⟩ := h
      simp [List.map_cons, hn, ih i hrest]

theorem noExtraKeys_of_names {β : Type} (s : Schema)
    (data : List (String × β))
    (h : ∀ p ∈ data, p.1 ∈ s.map Prod.fst) : noExtraKeys s data = true := by
  simp only [noExtraKeys, List.all_eq_true]
  intro p hp
  have hmem := h p hp
  simp only [List.mem_map] at hmem
  obtain ⟨q, hq, hq1⟩ := hmem
  simp only [List.any_eq_true]
  exact ⟨q, hq, by simp [beq_iff_eq, hq1]⟩

theorem set_lookup : ∀ (l : List (String × Value)) (n : String) (v : Value),
    n ∈ l.map Prod.fst →
    (l.map (fun p => if p.1 == n then (n, v) else p)).find?
      (fun p => p.1 == n) = some (n, v) := by
  intro l n v
  induction l with
  | nil => intro h; simp at h
  | cons p l ih =>
    intro h
    by_cases hp : p.1 = n
    · simp [List.find?_cons, hp]
    · have hb : (p.1 == n) = false := by simp [beq_iff_eq, hp]
      rw [List.map_cons, if_neg (by simp [hb])]
      rw [List.find?_cons, hb]
      apply ih
      simp only [List.map_cons, List.mem_cons] at h
      rcases h with h1 | h2
      · exact absurd h1.symm hp
      · exact h2

/-! ## Theorems for the claims -/

/-- **C4.** Every attempt to construct an instance of the invalid-marker type
`Invalid` raises a single, immediate `ValueError` — for all construction
inputs — and no instance is ever produced. -/
theorem invalid_construct_always_raises (data : Value) :
    Invalid.construct data
      = .error (.valueError "This is an invalid configuration.")
    ∧ ∀ i : Inst, Invalid.construct data ≠ .ok i := by
  refine ⟨rfl, ?_⟩
  intro i h
  simp [Invalid.construct, Invalid.invalidate] at h

/-- **C5.** `model_validate_no_missing` raises an error iff at least one field
of the instance still holds the MISSING sentinel; when no field is MISSING it
returns the instance itself, unchanged. -/
theorem model_validate_no_missing_iff (inst : Inst) :
    ((∃ e, model_validate_no_missing inst = .error e)
        ↔ ∃ p ∈ inst, p.2 = Value.vMissing)
    ∧ ((¬ ∃ p ∈ inst, p.2 = Value.vMissing)
        → model_validate_no_missing inst = .ok inst) := by
  have hmem : instHasMissing inst = true ↔ ∃ p ∈ inst, p.2 = Value.vMissing := by
    simp [instHasMissing, List.any_eq_true, beq_iff_eq]
  constructor
  · constructor
    · rintro ⟨e, he⟩
      by_cases h : instHasMissing inst
      · exact hmem.mp h
      · simp [model_validate_no_missing, h] at he
    · intro h
      refine ⟨.validationError "instance has MISSING fields", ?_⟩
      simp [model_validate_no_missing, hmem.mpr h]
  · intro h
    have h' : instHasMissing inst = false := by
      by_cases hb : instHasMissing inst
      · exact absurd (hmem.mp hb) h
      · simpa using hb
    simp [model_validate_no_missing, h']

/-- Witness for C5 at a concrete instance with no MISSING field. -/
theorem model_validate_no_missing_iff_witness :
    model_validate_no_missing [("a", Value.vInt 1)]
      = .ok [("a", Value.vInt 1)] :=
  (model_validate_no_missing_iff [("a", Value.vInt 1)]).2 (by decide)

theorem dedupGo_eq {α : Type} [DecidableEq α] (xs : List α) : ∀ seen : List α,
    dedupGo seen xs
      = seen ++ firstOccurrences
          (xs.filter (fun x => !seen.any (fun y => y == x))) := by
  induction xs with
  | nil => intro seen; simp [dedupGo, firstOccurrences]
  | cons x xs ih =>
    intro seen
    by_cases h : seen.any (fun y => y == x)
    · rw [show dedupGo seen (x :: xs) = dedupGo seen xs by simp [dedupGo, h]]
      rw [ih seen]
      simp [List.filter_cons, h]
    · rw [show dedupGo seen (x :: xs) = dedupGo (seen ++ [x]) xs by
        simp [dedupGo, h]]
      rw [ih (seen ++ [x])]
      rw [List.filter_cons]
      simp only [h, Bool.not_false, if_pos]
      rw [firstOccurrences]
      have hfil :
          xs.filter (fun z => !(seen ++ [x]).any (fun y => y == z))
            = (xs.filter (fun z => !seen.any (fun y => y == z))).filter
                (fun z => z != x) := by
        rw [List.filter_filter]
        apply List.filter_congr
        intro z _
        simp only [List.any_append, List.any_cons, List.any_nil,
          Bool.or_false, Bool.not_or, bne]
        have hxz : (x == z) = (z == x) := by
          by_cases hxz : x = z
          · subst hxz; simp
          · have hzx : ¬ z = x := fun hc => hxz hc.symm
            simp [hxz, hzx]
        rw [hxz, Bool.and_comm]
      rw [hfil]
      simp

theorem mem_firstOccurrences {α : Type} [DecidableEq α] (a : α) :
    ∀ l : List α, a ∈ firstOccurrences l ↔ a ∈ l := by
  intro l
  induction l using firstOccurrences.induct with
  | case1 => simp [firstOccurrences]
  | case2 x xs ih =>
    rw [firstOccurrences]
    simp only [List.mem_cons, ih, List.mem_filter, bne_iff_ne]
    by_cases h : a = x <;> simp [h]

theorem nodup_firstOccurrences {α : Type} [DecidableEq α] :
    ∀ l : List α, (firstOccurrences l).Nodup := by
  intro l
  induction l using firstOccurrences.induct with
  | case1 => simp [firstOccurrences]
  | case2 x xs ih =>
    rw [firstOccurrences]
    refine List.nodup_cons.mpr ⟨?_, ih⟩
    intro hmem
    rw [mem_firstOccurrences] at hmem
    have hx := List.of_mem_filter hmem
    simp at hx

/-- **C9.** `deduplicate` returns exactly the first occurrence of each
distinct item (under equality comparison), in the order those first
occurrences appear in the input; the result has no duplicates and has the
same members as the input.  The statement is quantified over every type with
decidable equality: no hashing structure on the items is required. -/
theorem deduplicate_spec {α : Type} [DecidableEq α] (xs : List α) :
    deduplicate xs = firstOccurrences xs
    ∧ (deduplicate xs).Nodup
    ∧ (∀ a, a ∈ deduplicate xs ↔ a ∈ xs) := by
  have h : deduplicate xs = firstOccurrences xs := by
    have hgo := dedupGo_eq xs []
    simpa [deduplicate] using hgo
  refine ⟨h, ?_, ?_⟩
  · rw [h]; exact nodup_firstOccurrences xs
  · intro a; rw [h]; exact mem_firstOccurrences a xs

theorem decDict_enc (t : FieldTy) (v : Value) (h : checkValue t v = true) :
    decDict t v = .ok v := by
  simp [decDict, h]

theorem decJson_encJson : ∀ (t : FieldTy) (v : Value),
    checkValue t v = true → decJson t (encJson v) = .ok v := by
  intro t
  induction t with
  | tBool => intro v h; cases v <;> simp_all [checkValue, encJson, decJson]
  | tInt => intro v h; cases v <;> simp_all [checkValue, encJson, decJson]
  | tStr => intro v h; cases v <;> simp_all [checkValue, encJson, decJson]
  | tLit lit =>
    intro v h
    cases v <;> simp_all [checkValue, encJson, decJson]
  | tAllowMissing t ih =>
    intro v h
    cases v with
    | vMissing => rfl
    | vNone => rw [checkValue_vNone] at h; cases h
    | vBool b =>
      have h' : checkValue t (Value.vBool b) = true := by
        simpa [checkValue] using h
      exact ih _ h'
    | vInt n =>
      have h' : checkValue t (Value.vInt n) = true := by
        simpa [checkValue] using h
      exact ih _ h'
    | vStr s =>
      have h' : checkValue t (Value.vStr s) = true := by
        simpa [checkValue] using h
      exact ih _ h'

theorem decYaml_encYaml : ∀ (t : FieldTy) (v : Value),
    checkValue t v = true → decYaml t (encYaml v) = .ok v := by
  intro t
  induction t with
  | tBool => intro v h; cases v <;> simp_all [checkValue, encYaml, decYaml]
  | tInt => intro v h; cases v <;> simp_all [checkValue, encYaml, decYaml]
  | tStr => intro v h; cases v <;> simp_all [checkValue, encYaml, decYaml]
  | tLit lit =>
    intro v h
    cases v <;> simp_all [checkValue, encYaml, decYaml]
  | tAllowMissing t ih =>
    intro v h
    cases v with
    | vMissing => rfl
    | vNone => rw [checkValue_vNone] at h; cases h
    | vBool b =>
      have h' : checkValue t (Value.vBool b) = true := by
        simpa [checkValue] using h
      exact ih _ h'
    | vInt n =>
      have h' : checkValue t (Value.vInt n) = true := by
        simpa [checkValue] using h
      exact ih _ h'
    | vStr s =>
      have h' : checkValue t (Value.vStr s) = true := by
        simpa [checkValue] using h
      exact ih _ h'

theorem decToml_encToml : ∀ (t : FieldTy) (v : Value) (w : TomlVal),
    checkValue t v = true → encToml v = some w → decToml t w = .ok v := by
  intro t
  induction t with
  | tBool =>
    intro v w h hw
    cases v <;> simp_all [checkValue, encToml]
    subst hw; rfl
  | tInt =>
    intro v w h hw
    cases v <;> simp_all [checkValue, encToml]
    subst hw; rfl
  | tStr =>
    intro v w h hw
    cases v <;> simp_all [checkValue, encToml]
    subst hw; rfl
  | tLit lit =>
    intro v w h hw
    cases v <;> simp_all [checkValue, encToml]
    subst hw; simp [decToml, h]
  | tAllowMissing t ih =>
    intro v w h hw
    cases v with
    | vMissing => simp [encToml] at hw
    | vNone => rw [checkValue_vNone] at h; cases h
    | vBool b =>
      have h' : checkValue t (Value.vBool b) = true := by
        simpa [checkValue] using h
      exact ih _ w h' hw
    | vInt n =>
      have h' : checkValue t (Value.vInt n) = true := by
        simpa [checkValue] using h
      exact ih _ w h' hw
    | vStr s =>
      have h' : checkValue t (Value.vStr s) = true := by
        simpa [checkValue] using h
      exact ih _ w h' hw

theorem decodeFields_encoded {β : Type} (enc : Value → β)
    (dec : FieldTy → β → Except PyError Value)
    (hc : ∀ t v, checkValue t v = true → dec t (enc v) = .ok v) :
    ∀ (s : Schema) (inst : Inst) (extra : List (String × β)),
      validateInst s inst = true →
      (s.map Prod.fst).Nodup →
      (∀ p ∈ extra, p.1 ∉ s.map Prod.fst) →
      decodeFields dec s (extra ++ inst.map (fun p => (p.1, enc p.2)))
        = .ok inst := by
  intro s
  induction s with
  | nil =>
    intro inst extra hval _ _
    cases inst with
    | nil => simp [decodeFields]
    | cons p i => simp [validateInst] at hval
  | cons q s ih =>
    intro inst extra hval hnd hdisj
    obtain ⟨n, t⟩ := q
    cases inst with
    | nil => simp [validateInst] at hval
    | cons p i =>
      obtain ⟨n', v⟩ := p
      simp only [validateInst, Bool.and_eq_true, beq_iff_eq] at hval
      obtain ⟨⟨hn, hcv⟩, hrest⟩ := hval
      subst hn
      have hnotin : n ∉ s.map Prod.fst := (List.nodup_cons.mp hnd).1
      have hndtail : (s.map Prod.fst).Nodup := (List.nodup_cons.mp hnd).2
      have hfind :
          (extra ++ (n, enc v) :: i.map (fun p => (p.1, enc p.2))).find?
            (fun p => p.1 == n) = some (n, enc v) := by
        rw [find?_append_of_forall_false]
        · rw [List.find?_cons]
          simp
        · intro x hx
          have hni := hdisj x hx
          simp only [List.map_cons, List.mem_cons] at hni
          simp only [beq_eq_false_iff_ne, ne_eq]
          exact fun hxe => hni (Or.inl hxe)
      have hdisj' : ∀ x ∈ extra ++ [(n, enc v)], x.1 ∉ s.map Prod.fst := by
        intro x hx
        rcases List.mem_append.mp hx with h1 | h2
        · have hni := hdisj x h1
          simp only [List.map_cons, List.mem_cons] at hni
          exact fun hmem => hni (Or.inr hmem)
        · have hxe : x = (n, enc v) := by simpa using h2
          subst hxe
          exact hnotin
      have hih := ih i (extra ++ [(n, enc v)]) hrest hndtail hdisj'
      have hdata :
          extra ++ (n, enc v) :: i.map (fun p => (p.1, enc p.2))
            = (extra ++ [(n, enc v)]) ++ i.map (fun p => (p.1, enc p.2)) := by
        simp
      simp only [List.map_cons, decodeFields]
      rw [hfind]
      simp only [hc t v hcv]
      rw [hdata]
      simp only [hih]

theorem to_toml_names (inst : Inst) :
    ∀ p ∈ to_toml inst, p.1 ∈ inst.map Prod.fst := by
  intro p hp
  simp only [to_toml, List.mem_filterMap] at hp
  obtain ⟨q, hq, hmap⟩ := hp
  cases h : encToml q.2 with
  | none => rw [h] at hmap; simp at hmap
  | some w =>
    rw [h] at hmap
    simp only [Option.map_some'] at hmap
    cases hmap
    exact List.mem_map.mpr ⟨q, hq, rfl⟩

theorem encToml_some_of_check (t : FieldTy) (v : Value)
    (h : checkValue t v = true) (hv : v ≠ Value.vMissing) :
    ∃ w, encToml v = some w := by
  cases v with
  | vMissing => exact absurd rfl hv
  | vNone => rw [checkValue_vNone] at h; cases h
  | vBool b => exact ⟨_, rfl⟩
  | vInt n => exact ⟨_, rfl⟩
  | vStr s => exact ⟨_, rfl⟩

theorem decodeFields_toml :
    ∀ (s : Schema) (inst : Inst) (extra : List (String × TomlVal)),
      validateInst s inst = true →
      (s.map Prod.fst).Nodup →
      (∀ p ∈ extra, p.1 ∉ s.map Prod.fst) →
      decodeFields decToml s (extra ++ to_toml inst) = .ok inst := by
  intro s
  induction s with
  | nil =>
    intro inst extra hval _ _
    cases inst with
    | nil => simp [decodeFields]
    | cons p i => simp [validateInst] at hval
  | cons q s ih =>
    intro inst extra hval hnd hdisj
    obtain ⟨n, t⟩ := q
    cases inst with
    | nil => simp [validateInst] at hval
    | cons p i =>
      obtain ⟨n', v⟩ := p
      simp only [validateInst, Bool.and_eq_true, beq_iff_eq] at hval
      obtain ⟨⟨hn, hcv⟩, hrest⟩ := hval
      subst hn
      have hnotin : n ∉ s.map Prod.fst := (List.nodup_cons.mp hnd).1
      have hndtail : (s.map Prod.fst).Nodup := (List.nodup_cons.mp hnd).2
      have hextra : ∀ x ∈ extra, (x.1 == n) = false := by
        intro x hx
        have hni := hdisj x hx
        simp only [List.map_cons, List.mem_cons] at hni
        simp only [beq_eq_false_iff_ne, ne_eq]
        exact fun hxe => hni (Or.inl hxe)
      by_cases hv : v = Value.vMissing
      · subst hv
        have htoml : to_toml ((n, Value.vMissing) :: i) = to_toml i := by
          simp [to_toml, encToml]
        have hfind : (extra ++ to_toml i).find? (fun p => p.1 == n) = none := by
          rw [find?_append_of_forall_false _ _ _ hextra]
          rw [List.find?_eq_none]
          intro x hx
          have hxi := to_toml_names i x hx
          rw [validateInst_names s i hrest] at hxi
          simp only [beq_iff_eq]
          exact fun hxe => hnotin (hxe ▸ hxi)
        have hallow : t.allowsMissing = true := by
          rw [← checkValue_vMissing]; exact hcv
        have hdisj' : ∀ x ∈ extra, x.1 ∉ s.map Prod.fst := by
          intro x hx
          have hni := hdisj x hx
          simp only [List.map_cons, List.mem_cons] at hni
          exact fun hmem => hni (Or.inr hmem)
        have hih := ih i extra hrest hndtail hdisj'
        rw [htoml, decodeFields, hfind]
        simp only [hallow, if_true, hih]
      · obtain ⟨w, hw⟩ := encToml_some_of_check t v hcv hv
        have htoml : to_toml ((n, v) :: i) = (n, w) :: to_toml i := by
          simp [to_toml, hw]
        have hfind :
            (extra ++ (n, w) :: to_toml i).find? (fun p => p.1 == n)
              = some (n, w) := by
          rw [find?_append_of_forall_false _ _ _ hextra]
          rw [List.find?_cons]
          simp
        have hdisj' : ∀ x ∈ extra ++ [(n, w)], x.1 ∉ s.map Prod.fst := by
          intro x hx
          rcases List.mem_append.mp hx with h1 | h2
          · have hni := hdisj x h1
            simp only [List.map_cons, List.mem_cons] at hni
            exact fun hmem => hni (Or.inr hmem)
          · have hxe : x = (n, w) := by simpa using h2
            subst hxe
            exact hnotin
        have hih := ih i (extra ++ [(n, w)]) hrest hndtail hdisj'
        have hdata : extra ++ (n, w) :: to_toml i
            = (extra ++ [(n, w)]) ++ to_toml i := by simp
        rw [htoml, decodeFields, hfind]
        simp only [decToml_encToml t v w hcv hw]
        rw [hdata]
        simp only [hih]

/-- **C2.** For every valid config instance, serializing and then
deserializing through each supported format — dict, JSON, YAML and TOML —
yields a config whose field values all equal those of the original
instance. -/
theorem serialization_roundtrip (s : Schema) (inst : Inst)
    (hval : validateInst s inst = true)
    (hnd : (s.map Prod.fst).Nodup) :
    from_dict s (to_dict inst) = .ok inst
    ∧ from_json s (to_json inst) = .ok inst
    ∧ from_yaml s (to_yaml inst) = .ok inst
    ∧ from_toml s (to_toml inst) = .ok inst := by
  have hnames := validateInst_names s inst hval
  have hmapnames : ∀ {β : Type} (f : Value → β),
      ∀ p ∈ inst.map (fun q => (q.1, f q.2)), p.1 ∈ s.map Prod.fst := by
    intro β f p hp
    simp only [List.mem_map] at hp
    obtain ⟨q, hq, hq1⟩ := hp
    rw [← hnames]
    subst hq1
    exact List.mem_map.mpr ⟨q, hq, rfl⟩
  refine ⟨?_, ?_, ?_, ?_⟩
  · have hid : inst.map (fun p => (p.1, (fun v => v) p.2)) = inst := by
      simp
    rw [from_dict, to_dict, loadData,
      if_pos (noExtraKeys_of_names s inst (by
        intro p hp; rw [← hnames]; exact List.mem_map.mpr ⟨p, hp, rfl⟩))]
    have h := decodeFields_encoded (fun v => v) decDict
      (fun t v h => decDict_enc t v h) s inst [] hval hnd (by simp)
    simpa [hid] using h
  · rw [to_json, from_json, loadData,
      if_pos (noExtraKeys_of_names s _ (hmapnames encJson))]
    have h := decodeFields_encoded encJson decJson decJson_encJson
      s inst [] hval hnd (by simp)
    simpa using h
  · rw [to_yaml, from_yaml, loadData,
      if_pos (noExtraKeys_of_names s _ (hmapnames encYaml))]
    have h := decodeFields_encoded encYaml decYaml decYaml_encYaml
      s inst [] hval hnd (by simp)
    simpa using h
  · rw [from_toml, loadData,
      if_pos (noExtraKeys_of_names s _ (by
        intro p hp
        rw [← hnames]
        exact to_toml_names inst p hp))]
    have h := decodeFields_toml s inst [] hval hnd (by simp)
    simpa using h

/-- Witness for C2 at a concrete schema and instance (an `AllowMissing` field
left MISSING, a literal discriminator, and ordinary fields). -/
theorem serialization_roundtrip_witness :
    from_dict [("a", FieldTy.tInt), ("b", FieldTy.tAllowMissing .tStr)]
        (to_dict [("a", Value.vInt 256), ("b", Value.vMissing)])
      = .ok [("a", Value.vInt 256), ("b", Value.vMissing)]
    ∧ from_json [("a", FieldTy.tInt), ("b", FieldTy.tAllowMissing .tStr)]
        (to_json [("a", Value.vInt 256), ("b", Value.vMissing)])
      = .ok [("a", Value.vInt 256), ("b", Value.vMissing)]
    ∧ from_yaml [("a", FieldTy.tInt), ("b", FieldTy.tAllowMissing .tStr)]
        (to_yaml [("a", Value.vInt 256), ("b", Value.vMissing)])
      = .ok [("a", Value.vInt 256), ("b", Value.vMissing)]
    ∧ from_toml [("a", FieldTy.tInt), ("b", FieldTy.tAllowMissing .tStr)]
        (to_toml [("a", Value.vInt 256), ("b", Value.vMissing)])
      = .ok [("a", Value.vInt 256), ("b", Value.vMissing)] :=
  serialization_roundtrip
    [("a", FieldTy.tInt), ("b", FieldTy.tAllowMissing .tStr)]
    [("a", Value.vInt 256), ("b", Value.vMissing)]
    (by decide) (by decide)

theorem decodeFields_missing_iff :
    ∀ (s : Schema) (data : List (String × Value)) (i : Inst) (n : String)
      (t : FieldTy),
      (s.map Prod.fst).Nodup →
      decodeFields decDict s data = .ok i →
      (n, t) ∈ s →
      (∀ p ∈ data, p.2 ≠ Value.vMissing) →
      (lookupField i n = some Value.vMissing
        ↔ data.find? (fun p => p.1 == n) = none) := by
  intro s
  induction s with
  | nil =>
    intro data i n t _ _ hmem _
    simp at hmem
  | cons q s ih =>
    obtain ⟨m, u⟩ := q
    intro data i n t hnd hdec hmem hprov
    have hnd' := hnd
    simp only [List.map_cons, List.nodup_cons] at hnd'
    obtain ⟨hmnotin, hndtail⟩ := hnd'
    rw [decodeFields] at hdec
    cases hfind : data.find? (fun p => p.1 == m) with
    | some p =>
      simp only [hfind] at hdec
      cases hdd : decDict u p.2 with
      | error e => simp only [hdd] at hdec; simp at hdec
      | ok v =>
        simp only [hdd] at hdec
        cases hrest : decodeFields decDict s data with
        | error e => simp only [hrest] at hdec; simp at hdec
        | ok i₀ =>
          simp only [hrest] at hdec
          have hi : i = (m, v) :: i₀ := by
            injection hdec with h
            exact h.symm
          subst hi
          have hv : v = p.2 := by
            by_cases hcv : checkValue u p.2
            · simp [decDict, hcv] at hdd
              exact hdd.symm
            · simp [decDict, hcv] at hdd
          have hpmem : p ∈ data := List.mem_of_find?_eq_some hfind
          have hpne : p.2 ≠ Value.vMissing := hprov p hpmem
          by_cases hnm : n = m
          · subst hnm
            have hl : lookupField ((n, v) :: i₀) n = some v := by
              simp [lookupField, List.find?_cons]
            rw [hl]
            constructor
            · intro hvm
              exfalso
              have hveq : v = Value.vMissing := Option.some.inj hvm
              rw [hv] at hveq
              exact hpne hveq
            · intro hnone
              rw [hfind] at hnone
              simp at hnone
          · have hmem' : (n, t) ∈ s := by
              rcases List.mem_cons.mp hmem with h1 | h2
              · exact absurd (congrArg Prod.fst h1) hnm
              · exact h2
            have hl : lookupField ((m, v) :: i₀) n = lookupField i₀ n := by
              have hb : (m == n) = false := by
                simp only [beq_eq_false_iff_ne, ne_eq]
                exact fun hc => hnm hc.symm
              simp [lookupField, List.find?_cons, hb]
            rw [hl]
            exact ih data i₀ n t hndtail hrest hmem' hprov
    | none =>
      simp only [hfind] at hdec
      by_cases hall : u.allowsMissing
      · simp only [hall, if_true] at hdec
        cases hrest : decodeFields decDict s data with
        | error e => simp only [hrest] at hdec; simp at hdec
        | ok i₀ =>
          simp only [hrest] at hdec
          have hi : i = (m, Value.vMissing) :: i₀ := by
            injection hdec with h
            exact h.symm
          subst hi
          by_cases hnm : n = m
          · subst hnm
            have hl : lookupField ((n, Value.vMissing) :: i₀) n
                = some Value.vMissing := by
              simp [lookupField, List.find?_cons]
            rw [hl]
            simp [hfind]
          · have hmem' : (n, t) ∈ s := by
              rcases List.mem_cons.mp hmem with h1 | h2
              · exact absurd (congrArg Prod.fst h1) hnm
              · exact h2
            have hl : lookupField ((m, Value.vMissing) :: i₀) n
                = lookupField i₀ n := by
              have hb : (m == n) = false := by
                simp only [beq_eq_false_iff_ne, ne_eq]
                exact fun hc => hnm hc.symm
              simp [lookupField, List.find?_cons, hb]
            rw [hl]
            exact ih data i₀ n t hndtail hrest hmem' hprov
      · simp [hall] at hdec

/-- **C7.** MISSING is a distinguished sentinel: distinct from `None`;
assignable (via `AllowMissing`) to a field of any declared type; never a
legal value of an ordinary (non-`AllowMissing`) field; and, after
construction from data none of whose provided values is MISSING itself,
checking a field against MISSING decides exactly whether that field was
provided in the input data. -/
theorem missing_sentinel_spec :
    Value.vMissing ≠ Value.vNone
    ∧ (∀ t : FieldTy, checkValue (.tAllowMissing t) .vMissing = true)
    ∧ (∀ (t : FieldTy) (v : Value), t.allowsMissing = false →
        checkValue t v = true → v ≠ .vMissing)
    ∧ (∀ (s : Schema) (data : List (String × Value)) (i : Inst)
        (n : String) (t : FieldTy),
        (s.map Prod.fst).Nodup →
        from_dict s data = .ok i →
        (n, t) ∈ s →
        (∀ p ∈ data, p.2 ≠ Value.vMissing) →
        (lookupField i n = some Value.vMissing
          ↔ data.find? (fun p => p.1 == n) = none)) := by
  refine ⟨by decide, ?_, ?_, ?_⟩
  · intro t; rfl
  · intro t v hall hcv hvm
    subst hvm
    rw [checkValue_vMissing, hall] at hcv
    simp at hcv
  · intro s data i n t hnd hfd hmem hprov
    rw [from_dict, loadData] at hfd
    by_cases hek : noExtraKeys s data
    · rw [if_pos hek] at hfd
      exact decodeFields_missing_iff s data i n t hnd hfd hmem hprov
    · rw [if_neg hek] at hfd
      simp at hfd

/-- Witness for C7: a two-field schema where field `a` is `AllowMissing` and
not provided; the MISSING check on the constructed instance decides exactly
that `a` was absent from the input data. -/
theorem missing_sentinel_spec_witness :
    lookupField [("a", Value.vMissing), ("b", Value.vInt 2)] "a"
        = some Value.vMissing
      ↔ ([("b", Value.vInt 2)] : List (String × Value)).find?
          (fun p => p.1 == "a") = none :=
  missing_sentinel_spec.2.2.2
    [("a", FieldTy.tAllowMissing .tInt), ("b", FieldTy.tInt)]
    [("b", Value.vInt 2)]
    [("a", Value.vMissing), ("b", Value.vInt 2)] "a"
    (FieldTy.tAllowMissing .tInt)
    (by decide) (by rfl) (by decide) (by decide)

/-- **C3.** `draft()` constructs an instance without running field
validation (all fields start unset); assignments to a draft are stored
without validation (no type check guards `Draft.set`, so even a value
violating the field's declared type is stored); `finalize()` runs full
validation over the draft's field values, returning the validated
configuration when they satisfy the schema and the validation library's
error otherwise. -/
theorem draft_finalize_spec (s : Schema) (d : Draft) (n : String) (v : Value) :
    (Config.draft s).fields = s.map (fun p => (p.1, Value.vMissing))
    ∧ (n ∈ d.fields.map Prod.fst →
        lookupField (d.set n v).fields n = some v)
    ∧ (validateInst s d.fields = true → Draft.finalize s d = .ok d.fields)
    ∧ (validateInst s d.fields = false →
        Draft.finalize s d
          = .error (.validationError "draft fields failed validation")) := by
  refine ⟨rfl, ?_, ?_, ?_⟩
  · intro hmem
    simp only [Draft.set, lookupField]
    rw [set_lookup d.fields n v hmem]
    rfl
  · intro h
    simp [Draft.finalize, h]
  · intro h
    simp [Draft.finalize, h]

/-- Witness for C3: assigning a string into an int-typed draft field succeeds
(no validation), and finalizing a well-typed draft returns its fields. -/
theorem draft_finalize_spec_witness :
    lookupField ((Draft.mk [("a", Value.vInt 1)]).set "a"
        (Value.vStr "x")).fields "a" = some (Value.vStr "x")
    ∧ Draft.finalize [("a", FieldTy.tInt)] (Draft.mk [("a", Value.vInt 1)])
        = .ok [("a", Value.vInt 1)] :=
  ⟨(draft_finalize_spec [("a", FieldTy.tInt)] (Draft.mk [("a", Value.vInt 1)])
      "a" (Value.vStr "x")).2.1 (by decide),
    (draft_finalize_spec [("a", FieldTy.tInt)] (Draft.mk [("a", Value.vInt 1)])
      "a" (Value.vStr "x")).2.2.1 (by decide)⟩

/-- **C6.** The singleton holder is an assignment-once cell: a first
successful `initialize` on an empty holder stores the produced instance
without warning; afterwards `instance()` and `try_instance()` return exactly
that stored object; every later `initialize` (with any argument form) leaves
the cell untouched and returns the stored instance with a warning; and
`reset()` clears the cell. -/
theorem singleton_assignment_once (s : Schema) (arg : InitArg) (i : Inst)
    (h : (Singleton.initializeHolder s ⟨none⟩ arg).result = .ok i) :
    (Singleton.initializeHolder s ⟨none⟩ arg).state.cell = some i
    ∧ (Singleton.initializeHolder s ⟨none⟩ arg).warned = false
    ∧ Singleton.instance' (Singleton.initializeHolder s ⟨none⟩ arg).state = .ok i
    ∧ Singleton.try_instance (Singleton.initializeHolder s ⟨none⟩ arg).state
        = some i
    ∧ (∀ arg', arg' ≠ InitArg.noArgs →
        Singleton.initializeHolder s (Singleton.initializeHolder s ⟨none⟩ arg).state arg'
          = ⟨(Singleton.initializeHolder s ⟨none⟩ arg).state, .ok i, true⟩)
    ∧ (Singleton.reset (Singleton.initializeHolder s ⟨none⟩ arg).state).cell
        = none := by
  cases arg with
  | noArgs => simp [Singleton.initializeHolder] at h
  | fromInstance j =>
    have hj : j = i := by
      simpa [Singleton.initializeHolder] using h
    subst hj
    refine ⟨rfl, rfl, rfl, rfl, ?_, rfl⟩
    intro arg' hne
    cases arg' with
    | noArgs => exact absurd rfl hne
    | fromInstance k => rfl
    | fromKwargs data => rfl
  | fromKwargs data =>
    cases hfd : from_dict s data with
    | error e => simp [Singleton.initializeHolder, hfd] at h
    | ok j =>
      have hj : j = i := by
        simpa [Singleton.initializeHolder, hfd] using h
      subst hj
      have hstate : (Singleton.initializeHolder s ⟨none⟩ (.fromKwargs data)).state
          = ⟨some j⟩ := by
        simp [Singleton.initializeHolder, hfd]
      refine ⟨?_, ?_, ?_, ?_, ?_, ?_⟩
      · rw [hstate]
      · simp [Singleton.initializeHolder, hfd]
      · rw [hstate]; rfl
      · rw [hstate]; rfl
      · intro arg' hne
        rw [hstate]
        cases arg' with
        | noArgs => exact absurd rfl hne
        | fromInstance k => rfl
        | fromKwargs data' => rfl
      · rw [hstate]; rfl

/-- Witness for C6: initializing an empty holder with a concrete instance. -/
theorem singleton_assignment_once_witness :
    (Singleton.initializeHolder [("a", FieldTy.tInt)] ⟨none⟩
        (.fromInstance [("a", Value.vInt 1)])).state.cell
      = some [("a", Value.vInt 1)] :=
  (singleton_assignment_once [("a", FieldTy.tInt)]
    (.fromInstance [("a", Value.vInt 1)]) [("a", Value.vInt 1)] rfl).1

/-- **C8.** On an uninitialized holder (also the state after any `reset()`),
`instance()` raises `RuntimeError`, `try_instance()` returns `None` instead
of raising, and `initialize()` with no arguments raises `TypeError` while
leaving the holder's state unchanged (and emitting no warning). -/
theorem singleton_uninitialized_errors (s : Schema) (st : SingletonState)
    (h : st.cell = none) :
    Singleton.instance' st
      = .error (.runtimeError "singleton has not been initialized")
    ∧ Singleton.try_instance st = none
    ∧ (Singleton.initializeHolder s st .noArgs).result
        = .error (.typeError "initialize() requires an instance or kwargs")
    ∧ (Singleton.initializeHolder s st .noArgs).state = st
    ∧ (Singleton.initializeHolder s st .noArgs).warned = false
    ∧ Singleton.try_instance (Singleton.reset st) = none := by
  refine ⟨?_, ?_, rfl, rfl, rfl, rfl⟩
  · simp [Singleton.instance', h]
  · simp [Singleton.try_instance, h]

/-- Witness for C8 at the empty holder state. -/
theorem singleton_uninitialized_errors_witness :
    Singleton.instance' (⟨none⟩ : SingletonState)
      = .error (.runtimeError "singleton has not been initialized") :=
  (singleton_uninitialized_errors [("a", FieldTy.tInt)] ⟨none⟩ rfl).1

theorem registerAll_preserves :
    ∀ (rest : List (String × ClassId)) (r r' : Registry) (d : String)
      (cls : ClassId),
      r.variants.find? (fun p => p.1 == d) = some (d, cls) →
      r.registerAll rest = .ok r' →
      r'.discriminator = r.discriminator
      ∧ r'.variants.find? (fun p => p.1 == d) = some (d, cls) := by
  intro rest
  induction rest with
  | nil =>
    intro r r' d cls hf h
    simp only [Registry.registerAll] at h
    injection h with h
    subst h
    exact ⟨rfl, hf⟩
  | cons q rest ih =>
    obtain ⟨d', c'⟩ := q
    intro r r' d cls hf h
    simp only [Registry.registerAll] at h
    cases hreg : r.register d' c' with
    | error e => simp only [hreg] at h; simp at h
    | ok r₁ =>
      simp only [hreg] at h
      by_cases hany : r.variants.any (fun p => p.1 == d')
      · simp [Registry.register, hany] at hreg
      · simp only [Registry.register] at hreg
        rw [if_neg hany] at hreg
        have hr₁ : r₁ = { r with variants := (d', c') :: r.variants } := by
          injection hreg with h'
          exact h'.symm
        subst hr₁
        have hd : d' ≠ d := by
          intro hde
          subst hde
          apply hany
          exact List.any_eq_true.mpr
            ⟨(d', cls), List.mem_of_find?_eq_some hf, by simp⟩
        have hf₁ :
            (({ r with variants := (d', c') :: r.variants } :
              Registry)).variants.find? (fun p => p.1 == d)
              = some (d, cls) := by
          have hb : (d' == d) = false := by
            simp only [beq_eq_false_iff_ne, ne_eq]
            exact hd
          simp only [List.find?_cons, hb]
          exact hf
        have hih := ih _ r' d cls hf₁ h
        exact ⟨hih.1, hih.2⟩

/-- **C1.** After a variant class is registered under a discriminator value —
no matter whether before or after the parent config class was defined, and
no matter which other variants are registered afterwards — validating input
data whose discriminator field carries that value resolves to exactly that
registered variant class (and validates the data against its schema). -/
theorem registry_resolves_registered (env : ClassId → Schema)
    (r r₁ r₂ : Registry) (d : String) (cls : ClassId)
    (rest : List (String × ClassId)) (data : List (String × Value))
    (i : Inst)
    (hreg : r.register d cls = .ok r₁)
    (hrest : r₁.registerAll rest = .ok r₂)
    (hdisc : (data.find? (fun p => p.1 == r.discriminator)).map Prod.snd
        = some (Value.vStr d))
    (hvalid : from_dict (env cls) data = .ok i) :
    r₂.construct env data = .ok ⟨cls, i⟩ := by
  by_cases hany : r.variants.any (fun p => p.1 == d)
  · simp [Registry.register, hany] at hreg
  · simp only [Registry.register] at hreg
    rw [if_neg hany] at hreg
    have hr₁ : r₁ = { r with variants := (d, cls) :: r.variants } := by
      injection hreg with h'
      exact h'.symm
    subst hr₁
    have hf₁ :
        (({ r with variants := (d, cls) :: r.variants } :
          Registry)).variants.find? (fun p => p.1 == d) = some (d, cls) := by
      simp [List.find?_cons]
    have hpres := registerAll_preserves rest _ r₂ d cls hf₁ hrest
    have hdisc₂ :
        (data.find? (fun p => p.1 == r₂.discriminator)).map Prod.snd
          = some (Value.vStr d) := by
      rw [hpres.1]
      exact hdisc
    have hres : r₂.resolve data = some cls := by
      rw [Registry.resolve]
      rw [hdisc₂]
      simp [hpres.2]
    rw [Registry.construct, hres]
    simp [hvalid]

/-- Witness for C1: a registry on discriminator "type" where "Dog" is
registered under "dog" and "Cat" under "cat" afterwards; data carrying
type="dog" validates as the "Dog" variant. -/
theorem registry_resolves_registered_witness :
    Registry.construct
        (fun c => if c = "Dog"
          then [("type", FieldTy.tLit "dog"), ("name", FieldTy.tStr)]
          else [("type", FieldTy.tLit "cat"), ("name", FieldTy.tStr)])
        ⟨"type", [("cat", "Cat"), ("dog", "Dog")]⟩
        [("type", Value.vStr "dog"), ("name", Value.vStr "Buddy")]
      = .ok ⟨"Dog",
          [("type", Value.vStr "dog"), ("name", Value.vStr "Buddy")]⟩ :=
  registry_resolves_registered
    (fun c => if c = "Dog"
      then [("type", FieldTy.tLit "dog"), ("name", FieldTy.tStr)]
      else [("type", FieldTy.tLit "cat"), ("name", FieldTy.tStr)])
    ⟨"type", []⟩ ⟨"type", [("dog", "Dog")]⟩
    ⟨"type", [("cat", "Cat"), ("dog", "Dog")]⟩
    "dog" "Dog" [("cat", "Cat")]
    [("type", Value.vStr "dog"), ("name", Value.vStr "Buddy")]
    [("type", Value.vStr "dog"), ("name", Value.vStr "Buddy")]
    (by rfl) (by rfl) (by rfl) (by rfl)

/-- **C10.** The default `__hash__` is congruent with config equality: two
config objects (with possibly different object identities) that compare
equal have identical hash values; and for a config class with
`set_default_hash=False`, every attempt to hash an instance raises
`TypeError`. -/
theorem hash_spec (a b : PyObj) (h : cfgEq a b = true) :
    defaultHash a = defaultHash b
    ∧ ∀ c : PyObj,
        hashConfig false c = .error (.typeError "unhashable type") := by
  constructor
  · have hf : a.fields = b.fields := by
      simpa [cfgEq] using h
    simp [defaultHash, hf]
  · intro c
    rfl

/-- Witness for C10: two objects with different identities but equal fields
hash identically. -/
theorem hash_spec_witness :
    defaultHash ⟨0, [("a", Value.vInt 1)]⟩
      = defaultHash ⟨1, [("a", Value.vInt 1)]⟩ :=
  (hash_spec ⟨0, [("a", Value.vInt 1)]⟩ ⟨1, [("a", Value.vInt 1)]⟩
    (by decide)).1

end NshConfig
